import Mathlib

/-!
Verification of the memflow core: architecture dispatch, batched
virtual-to-physical translation, the physical page cache write path,
the cached-access builder, and the variable-length string reader.

Shallow embedding conventions:
* machine integers are `Nat`; bit operations use `Nat.testBit`,
  `Nat.land`, division and modulus by powers of two;
* a physical-memory backend is a pure byte map `Mem := Nat → Nat`
  (the claims under study quantify over backends; the pure total
  backend class models a backend whose batched reads succeed);
* fallible operations return `Except`.

Definitions are translated from the repository sources
(`flow-core/src/architecture/mod.rs`, `flow-core/src/architecture/x64.rs`,
`flow-core/src/mem/cache/cached_memory_access.rs`,
`memflow/src/mem/phys_mem.rs`).  Parts of the repository that the
sampled sources only call into (the generic MMU walker, the page-cache
internals, the address/page-type newtypes) are modelled from the
specification; each such definition says so in its doc comment.
-/

/-- A physical-memory backend: the byte stored at each physical address.
Modelled from the spec: `phys_read_raw_list` fills every buffer from the
backend's byte content; a pure map models a backend whose reads succeed. -/
def Mem : Type := Nat → Nat

namespace PageType

/-- Modelled from the spec: `PageType` bitflag for an unknown page. -/
def UNKNOWN : Nat := 1

/-- Modelled from the spec: `PageType` bitflag for a page-table page. -/
def PAGE_TABLE : Nat := 2

/-- Modelled from the spec: `PageType` bitflag for a writeable page. -/
def WRITEABLE : Nat := 4

/-- Modelled from the spec: `PageType` bitflag for a read-only page. -/
def READ_ONLY : Nat := 8

/-- Modelled from the spec: `PageType` bitflag for a non-executable page. -/
def NOEXEC : Nat := 16

end PageType

/-- Modelled from the spec: `PhysicalAddress` is a pair of an address and
a `PageType` bitset together with an advisory page-size hint. -/
structure PhysicalAddress where
  address : Nat
  page_type : Nat
  page_size : Nat
deriving DecidableEq, Repr

/-- Modelled from the spec: `PhysicalAddress::from(Address)` wraps the
address with `page_type = UNKNOWN` and no page-size hint. -/
def PhysicalAddress.from (a : Nat) : PhysicalAddress :=
  { address := a, page_type := PageType.UNKNOWN, page_size := 0 }

/-- Per-slot translation failures of the page-table walk
(spec section 7: `PageNotPresent`, `InvalidPageTable`). -/
inductive TranslateError where
  | pageNotPresent
  | invalidPageTable
deriving DecidableEq, Repr

/-- The architecture MMU description, fields as in
`flow-core/src/architecture/x64.rs` (`ArchMMUSpec`). -/
structure ArchMMUSpec where
  virtual_address_splits : List Nat
  valid_final_page_steps : List Nat
  address_space_bits : Nat
  pte_size : Nat
  present_bit : Nat
  writeable_bit : Nat
  nx_bit : Nat
  large_page_bit : Nat
deriving DecidableEq, Repr

namespace x64

/-- `x64::get_mmu_spec` from `flow-core/src/architecture/x64.rs`. -/
def get_mmu_spec : ArchMMUSpec :=
  { virtual_address_splits := [9, 9, 9, 9, 12]
    valid_final_page_steps := [2, 3, 4]
    address_space_bits := 52
    pte_size := 8
    present_bit := 0
    writeable_bit := 1
    nx_bit := 63
    large_page_bit := 7 }

end x64

namespace x86_pae

/-- Modelled from the spec: the PAE MMU description
(`virtual_address_splits = [2, 9, 9, 12]`, 2 MiB large pages at step 2,
8-byte PTEs); the repository's `x86_pae` module is not among the sampled
sources. -/
def get_mmu_spec : ArchMMUSpec :=
  { virtual_address_splits := [2, 9, 9, 12]
    valid_final_page_steps := [2, 3]
    address_space_bits := 35
    pte_size := 8
    present_bit := 0
    writeable_bit := 1
    nx_bit := 63
    large_page_bit := 7 }

end x86_pae

namespace x86

/-- Modelled from the spec: the legacy x86 MMU description
(`virtual_address_splits = [10, 10, 12]`, 4 MiB large pages at step 1,
4-byte PTEs); the repository's `x86` module is not among the sampled
sources. -/
def get_mmu_spec : ArchMMUSpec :=
  { virtual_address_splits := [10, 10, 12]
    valid_final_page_steps := [1, 2]
    address_space_bits := 32
    pte_size := 4
    present_bit := 0
    writeable_bit := 1
    nx_bit := 31
    large_page_bit := 7 }

end x86

/-- The architecture tag enum from `flow-core/src/architecture/mod.rs`. -/
inductive Architecture where
  | Null
  | X64
  | X86Pae
  | X86
deriving DecidableEq, Repr

/-- `TryFrom<u8> for Architecture` from
`flow-core/src/architecture/mod.rs`: decode a tag byte. -/
def Architecture.try_from (value : Nat) : Except String Architecture :=
  match value with
  | 0 => .ok .Null
  | 1 => .ok .X64
  | 2 => .ok .X86Pae
  | 3 => .ok .X86
  | _ => .error "Invalid Architecture value"

/-- `Architecture::as_u8` from `flow-core/src/architecture/mod.rs`. -/
def Architecture.as_u8 : Architecture → Nat
  | .Null => 0
  | .X64 => 1
  | .X86Pae => 2
  | .X86 => 3

/-- The per-slot outcome of one translation result. -/
abbrev TransResult := Except TranslateError PhysicalAddress

/-- Little-endian word of `n` bytes read from the backend at address `a`.
Modelled from the spec: PTE reads follow the architecture's (little)
endianness. -/
def readWord (mem : Mem) (a : Nat) : Nat → Nat
  | 0 => 0
  | n + 1 => mem a + 256 * readWord mem (a + 1) n

namespace ArchMMUSpec

/-- Number of table-walk steps: every split except the final page-offset
width indexes one level of page table. -/
def table_steps (s : ArchMMUSpec) : Nat := s.virtual_address_splits.length - 1

/-- Bits of the virtual address covered by the fields from `step` on
(the fields below the field of step `step`, plus the page offset). -/
def low_bits (s : ArchMMUSpec) (step : Nat) : Nat :=
  (s.virtual_address_splits.drop step).sum

/-- The page-offset width: the last entry of `virtual_address_splits`. -/
def page_offset_bits (s : ArchMMUSpec) : Nat := s.low_bits s.table_steps

/-- Width of the index field consumed at step `step` (steps are 1-based). -/
def split_at (s : ArchMMUSpec) (step : Nat) : Nat :=
  s.virtual_address_splits.getD (step - 1) 0

/-- Modelled from the spec (4.2): `index_s(v)` extracts the bit slice of
`v` selected by `virtual_address_splits[s]`. -/
def index_of (s : ArchMMUSpec) (step v : Nat) : Nat :=
  (v / 2 ^ s.low_bits step) % 2 ^ s.split_at step

/-- Modelled from the spec (4.2): the PTE address at a step is
`frame + index_s(v) * pte_size`. -/
def pte_addr (s : ArchMMUSpec) (step v frame : Nat) : Nat :=
  frame + s.index_of step v * s.pte_size

/-- Modelled from the spec (4.2): the physical-address field of a PTE —
the PTE word with the page-offset-low bits and the flag bits from the
`nx` position upward cleared. -/
def pte_addr_field (s : ArchMMUSpec) (pte : Nat) : Nat :=
  ((pte / 2 ^ s.page_offset_bits) % 2 ^ (s.nx_bit - s.page_offset_bits)) *
    2 ^ s.page_offset_bits

/-- Modelled from the spec (4.2): page type decoded from the PTE —
`WRITEABLE` from the writeable bit (`READ_ONLY` as its inverse),
`NOEXEC` from the nx bit, and `PAGE_TABLE` when the leaf came from the
final page-table level rather than a large-page shortcut. -/
def decode_flags (s : ArchMMUSpec) (step pte : Nat) : Nat :=
  (if pte.testBit s.writeable_bit then PageType.WRITEABLE else PageType.READ_ONLY) +
  (if pte.testBit s.nx_bit then PageType.NOEXEC else 0) +
  (if step = s.table_steps then PageType.PAGE_TABLE else 0)

/-- What one walk step does to one in-flight entry. -/
inductive StepOutcome where
  | fail (e : TranslateError)
  | leaf (pa : PhysicalAddress)
  | next (frame : Nat)
deriving DecidableEq, Repr

/-- Modelled from the spec (4.2, phase items 1 and 4): read the PTE for
the entry; fail with `PageNotPresent` on a clear present bit; fail with
`InvalidPageTable` when the referenced physical address has a bit set at
or above `address_space_bits`; emit a leaf page when the step may
terminate (`valid_final_page_steps` and either the last step or the
large-page bit); otherwise advance the frame to the referenced table. -/
def vtop_step (s : ArchMMUSpec) (mem : Mem) (step v frame : Nat) : StepOutcome :=
  let pte := readWord mem (s.pte_addr step v frame) s.pte_size
  if pte.testBit s.present_bit then
    let field := s.pte_addr_field pte
    if 2 ^ s.address_space_bits ≤ field then .fail .invalidPageTable
    else if step ∈ s.valid_final_page_steps ∧
        (step = s.table_steps ∨ pte.testBit s.large_page_bit) then
      let pb := s.low_bits step
      .leaf { address := field / 2 ^ pb * 2 ^ pb + v % 2 ^ pb
              page_type := s.decode_flags step pte
              page_size := 2 ^ pb }
    else .next field
  else .fail .pageNotPresent

/-- The walk of a single virtual address through the given step numbers:
`none` when the steps run out with the entry still in flight. -/
def walk_from (s : ArchMMUSpec) (mem : Mem) (v : Nat) :
    List Nat → Nat → Option TransResult
  | [], _ => none
  | step :: rest, frame =>
    match s.vtop_step mem step v frame with
    | .fail e => some (.error e)
    | .leaf pa => some (.ok pa)
    | .next f => s.walk_from mem v rest f

/-- The single-address translation: walk steps `1..table_steps` from the
DTB root. -/
def virt_to_phys_single (s : ArchMMUSpec) (mem : Mem) (dtb v : Nat) :
    Option TransResult :=
  s.walk_from mem v (List.range' 1 s.table_steps) dtb

/-- The per-slot result an entry obtains at a step, `none` while the
entry keeps walking. -/
def step_resolved (s : ArchMMUSpec) (mem : Mem) (step v frame : Nat) :
    Option TransResult :=
  match s.vtop_step mem step v frame with
  | .fail e => some (.error e)
  | .leaf pa => some (.ok pa)
  | .next _ => none

/-- One batched phase over the working set: store each resolved entry's
result in its output slot. Working-set entries are
`(slot, virtual address, current frame)`. -/
def resolve_slots (s : ArchMMUSpec) (mem : Mem) (step : Nat)
    (w : List (Nat × Nat × Nat)) (out : List (Option TransResult)) :
    List (Option TransResult) :=
  w.foldl (fun o e =>
    match s.step_resolved mem step e.2.1 e.2.2 with
    | some r => o.set e.1 (some r)
    | none => o) out

/-- One batched phase over the working set: keep the entries that advance
to the next table, with their new frame. -/
def advance_set (s : ArchMMUSpec) (mem : Mem) (step : Nat)
    (w : List (Nat × Nat × Nat)) : List (Nat × Nat × Nat) :=
  w.filterMap (fun e =>
    match s.vtop_step mem step e.2.1 e.2.2 with
    | .next f => some (e.1, e.2.1, f)
    | _ => none)

/-- Modelled from the spec (4.2): the batched engine repeats phases until
the working set is empty or the steps run out. With a pure backend the
per-phase PTE-read de-duplication and the single batched read fan the
same bytes out to every entry, so each phase processes the entries
pointwise. -/
def run_steps (s : ArchMMUSpec) (mem : Mem) :
    List Nat → List (Nat × Nat × Nat) → List (Option TransResult) →
    List (Option TransResult)
  | [], _, out => out
  | step :: rest, w, out =>
    s.run_steps mem rest (s.advance_set mem step w) (s.resolve_slots mem step w out)

/-- Modelled from the spec (4.2, phase 0): the batched translation seeds
the working set with `(slot i, v_i, DTB root)` and an all-unwritten
output vector, then runs steps `1..table_steps`. -/
def virt_to_phys_iter (s : ArchMMUSpec) (mem : Mem) (dtb : Nat)
    (addrs : List Nat) : List (Option TransResult) :=
  s.run_steps mem (List.range' 1 s.table_steps)
    (addrs.enum.map (fun p => (p.1, p.2, dtb)))
    (addrs.map (fun _ => none))

end ArchMMUSpec

/-- `Architecture::virt_to_phys_iter` from
`flow-core/src/architecture/mod.rs`: the `Null` arm pushes
`Ok(PhysicalAddress::from(addr))` for every input; the other arms
dispatch to the per-architecture batched walker. -/
def Architecture.virt_to_phys_iter (a : Architecture) (mem : Mem)
    (dtb : Nat) (addrs : List Nat) : List (Option TransResult) :=
  match a with
  | .Null => addrs.map (fun v => some (.ok (PhysicalAddress.from v)))
  | .X64 => x64.get_mmu_spec.virt_to_phys_iter mem dtb addrs
  | .X86Pae => x86_pae.get_mmu_spec.virt_to_phys_iter mem dtb addrs
  | .X86 => x86.get_mmu_spec.virt_to_phys_iter mem dtb addrs

/-- `Architecture::virt_to_phys` from
`flow-core/src/architecture/mod.rs`: run the batched translator on the
one-element batch and pop the result vector. `vec.pop()` is `getLast?`;
its `.unwrap()` is the fact (proved below) that the popped slot is
always written. -/
def Architecture.virt_to_phys (a : Architecture) (mem : Mem) (dtb v : Nat) :
    Option TransResult :=
  match (a.virt_to_phys_iter mem dtb [v]).getLast? with
  | some r => r
  | none => none

/-- The all-zero backend: every byte reads as `0`, so every PTE has a
clear present bit. -/
def zeroMem : Mem := fun _ => 0

/-- `ArchMMUSpec::page_size_level`: the size of a leaf page `pt_level`
levels above the smallest. Modelled from the spec: the leaf at step `s`
covers the bits of the fields from `s` on. -/
def ArchMMUSpec.page_size_level (s : ArchMMUSpec) (pt_level : Nat) : Nat :=
  2 ^ s.low_bits (s.table_steps + 1 - pt_level)

/-- `Architecture::page_size` from `flow-core/src/architecture/mod.rs`:
dispatch to the per-architecture module (`Null` uses the x64 values). -/
def Architecture.page_size : Architecture → Nat
  | .Null => x64.get_mmu_spec.page_size_level 1
  | .X64 => x64.get_mmu_spec.page_size_level 1
  | .X86Pae => x86_pae.get_mmu_spec.page_size_level 1
  | .X86 => x86.get_mmu_spec.page_size_level 1

/-- Validity of one page-cache slot, the buffer held inside the `Valid`
arm as in `PageValidity::Valid(buf)` used by
`flow-core/src/mem/cache/cached_memory_access.rs`; the remaining arms are
modelled from the spec (`validity ∈ {Invalid, Valid, ValidHole}`). -/
inductive PageValidity where
  | invalid
  | valid (buf : List Nat)
  | validHole
deriving DecidableEq, Repr

/-- A page-cache slot: base physical address plus validity (with the
page buffer inside the `valid` arm), the fields
`cached_page.address` / `cached_page.validity` used by the write path. -/
structure CacheEntry where
  address : Nat
  validity : PageValidity
deriving DecidableEq, Repr

/-- Modelled from the spec (4.3): the direct-mapped page cache —
fixed slot table, page size, page-type mask, and the validity oracle
(`is_valid` per slot, as it answers after `update_validity`). -/
structure PageCache where
  slots : List CacheEntry
  page_size : Nat
  page_type_mask : Nat
  validator : Nat → Bool

/-- Modelled from the spec (4.3): slot of a physical address —
`(base >> log2 page_size) mod n_slots`. -/
def PageCache.slot_idx (c : PageCache) (paddr : Nat) : Nat :=
  paddr / c.page_size % c.slots.length

/-- The page-aligned base of an address for page size `ps`. -/
def pageBase (ps paddr : Nat) : Nat := paddr / ps * ps

/-- `PageCache::is_cached_page_type`: does the page type intersect the
cache's page-type mask. Modelled from the spec (4.3):
`page_type ∩ page_type_mask ≠ ∅`. -/
def PageCache.is_cached_page_type (c : PageCache) (pt : Nat) : Bool :=
  Nat.land pt c.page_type_mask != 0

/-- `PageCache::cached_page_mut(paddr, false)` as used by the write path.
Modelled from the spec (4.3): locate the slot; the entry is usable when
the incumbent holds the same page and the validator accepts the slot;
otherwise a detached entry with `Invalid` validity (the `false` flag:
no allocation). -/
def PageCache.cached_page_mut (c : PageCache) (paddr : Nat) : CacheEntry :=
  let idx := c.slot_idx paddr
  let base := pageBase c.page_size paddr
  match c.slots[idx]? with
  | some e =>
    if e.address = base ∧ c.validator idx then
      { address := base, validity := e.validity }
    else
      { address := base, validity := .invalid }
  | none => { address := base, validity := .invalid }

/-- `PageCache::put_entry`: store a `Valid` entry back into its slot;
entries without a valid buffer are dropped (the write path never
allocates cache entries). Modelled from the spec (4.3). -/
def PageCache.put_entry (c : PageCache) (e : CacheEntry) : PageCache :=
  match e.validity with
  | .valid _ => { c with slots := c.slots.set (c.slot_idx e.address) e }
  | _ => c

/-- `buf[start..start + chunk.len()].copy_from_slice(chunk)` on the list
model: the bytes of `buf` from `start` on are replaced by `chunk`. -/
def listOverwrite (buf : List Nat) (start : Nat) (chunk : List Nat) : List Nat :=
  buf.take start ++ chunk ++ buf.drop (start + chunk.length)

/-- Fuel-driven body of `page_chunks`: cut the data at page boundaries.
The fuel is the data length; each round consumes at least one byte when
the page size is positive. -/
def pageChunksF (ps : Nat) : Nat → Nat → List Nat → List (Nat × List Nat)
  | 0, _, _ => []
  | _, _, [] => []
  | fuel + 1, base, d :: rest =>
    let data := d :: rest
    let l := min data.length (ps - base % ps)
    (base, data.take l) :: pageChunksF ps fuel (base + l) (data.drop l)

/-- `data.page_chunks(base, page_size)`: the page-aligned chunks of a
buffer starting at `base`, as `(chunk start address, chunk bytes)`.
Modelled from the spec (4.3): requests split at `page_size` boundaries. -/
def pageChunks (base ps : Nat) (data : List Nat) : List (Nat × List Nat) :=
  pageChunksF ps data.length base data

/-- One chunk of the write path of
`CachedMemoryAccess::phys_write_iter`: fetch the slot via
`cached_page_mut`, overwrite the intersecting bytes when it holds a
valid buffer, and hand the entry to `put_entry`. -/
def PageCache.write_chunk (c : PageCache) (paddr : Nat) (chunk : List Nat) :
    PageCache :=
  let e := c.cached_page_mut paddr
  match e.validity with
  | .valid buf =>
    let start := paddr - e.address
    c.put_entry { address := e.address
                  validity := .valid (listOverwrite buf start chunk) }
  | _ => c.put_entry e

/-- The cache effect of one write of
`CachedMemoryAccess::phys_write_iter`: when the write's page type
intersects the mask, update the cache chunk by chunk; otherwise leave
the cache alone. -/
def PageCache.write_one (c : PageCache) (addr : PhysicalAddress)
    (data : List Nat) : PageCache :=
  if c.is_cached_page_type addr.page_type then
    (pageChunks addr.address c.page_size data).foldl
      (fun c2 pc => c2.write_chunk pc.1 pc.2) c
  else c

/-- The backend effect of one forwarded write: the bytes at
`addr..addr+len` become the written data. -/
def storeBytes (m : Mem) (addr : Nat) (data : List Nat) : Mem :=
  fun a => if addr ≤ a ∧ a < addr + data.length then data.getD (a - addr) 0 else m a

/-- The cache wrapper: backend plus page cache (the scratch arena holds
no data visible to the state model; its reset discipline is modelled by
the event traces below). -/
structure CachedMemoryAccess where
  mem : Mem
  cache : PageCache

/-- `CachedMemoryAccess::phys_write_iter` from
`flow-core/src/mem/cache/cached_memory_access.rs`: every write of the
batch updates matching valid cache pages in place and is forwarded to
the backend. -/
def CachedMemoryAccess.phys_write_iter (x : CachedMemoryAccess)
    (writes : List (PhysicalAddress × List Nat)) : CachedMemoryAccess :=
  { mem := writes.foldl (fun m w => storeBytes m w.1.address w.2) x.mem
    cache := writes.foldl (fun c w => c.write_one w.1 w.2) x.cache }

/-- `Length::from_mb`. -/
def Length.from_mb (n : Nat) : Nat := n * 1024 * 1024

/-- `CachedMemoryAccessBuilder` from
`flow-core/src/mem/cache/cached_memory_access.rs`: `mem`, `validator`
and `page_size` start unset; `cache_size` and `page_type_mask` carry
defaults. -/
structure CachedMemoryAccessBuilder where
  mem : Option Mem
  validator : Option (Nat → Bool)
  page_size : Option Nat
  cache_size : Nat
  page_type_mask : Nat

/-- `Default for CachedMemoryAccessBuilder`: nothing set, 2 MiB cache,
mask `PAGE_TABLE | READ_ONLY`. -/
def CachedMemoryAccessBuilder.default : CachedMemoryAccessBuilder :=
  { mem := none
    validator := none
    page_size := none
    cache_size := Length.from_mb 2
    page_type_mask := Nat.lor PageType.PAGE_TABLE PageType.READ_ONLY }

/-- `PageCache::with_page_size`. Modelled from the spec (4.3): number of
slots is `cache_bytes / page_size`; slots start invalid. -/
def PageCache.with_page_size (page_size cache_size page_type_mask : Nat)
    (validator : Nat → Bool) : PageCache :=
  { slots := List.replicate (cache_size / page_size)
      { address := 0, validity := .invalid }
    page_size := page_size
    page_type_mask := page_type_mask
    validator := validator }

/-- `CachedMemoryAccessBuilder::build`: `mem`, `page_size` and
`validator` are unwrapped with `ok_or` in that order; `cache_size` and
`page_type_mask` are used as they stand. -/
def CachedMemoryAccessBuilder.build (b : CachedMemoryAccessBuilder) :
    Except String CachedMemoryAccess :=
  match b.mem with
  | none => .error "mem must be initialized"
  | some m =>
    match b.page_size with
    | none => .error "page_size must be initialized"
    | some ps =>
      match b.validator with
      | none => .error "validator must be initialized"
      | some v =>
        .ok { mem := m
              cache := PageCache.with_page_size ps b.cache_size b.page_type_mask v }

/-- `CachedMemoryAccessBuilder::mem`. -/
def CachedMemoryAccessBuilder.set_mem (b : CachedMemoryAccessBuilder)
    (m : Mem) : CachedMemoryAccessBuilder := { b with mem := some m }

/-- `CachedMemoryAccessBuilder::validator`. -/
def CachedMemoryAccessBuilder.set_validator (b : CachedMemoryAccessBuilder)
    (v : Nat → Bool) : CachedMemoryAccessBuilder := { b with validator := some v }

/-- `CachedMemoryAccessBuilder::page_size`. -/
def CachedMemoryAccessBuilder.set_page_size (b : CachedMemoryAccessBuilder)
    (ps : Nat) : CachedMemoryAccessBuilder := { b with page_size := some ps }

/-- `CachedMemoryAccessBuilder::cache_size`. -/
def CachedMemoryAccessBuilder.set_cache_size (b : CachedMemoryAccessBuilder)
    (cs : Nat) : CachedMemoryAccessBuilder := { b with cache_size := cs }

/-- `CachedMemoryAccessBuilder::arch`. -/
def CachedMemoryAccessBuilder.set_arch (b : CachedMemoryAccessBuilder)
    (a : Architecture) : CachedMemoryAccessBuilder :=
  { b with page_size := some a.page_size }

/-- `CachedMemoryAccessBuilder::page_type_mask`. -/
def CachedMemoryAccessBuilder.set_page_type_mask (b : CachedMemoryAccessBuilder)
    (mask : Nat) : CachedMemoryAccessBuilder := { b with page_type_mask := mask }

/-- A one-slot cache holding a valid page at address 0, used for
concrete instantiations. -/
def sampleCache : PageCache :=
  { slots := [{ address := 0, validity := .valid [1, 2, 3, 4] }]
    page_size := 4
    page_type_mask := 2
    validator := fun _ => true }

/-- A cache wrapper over the all-zero backend and `sampleCache`. -/
def sampleAccess : CachedMemoryAccess :=
  { mem := zeroMem, cache := sampleCache }

/-- A one-slot cache whose slot is invalid, used for concrete
instantiations that must miss. -/
def missCache : PageCache :=
  { slots := [{ address := 0, validity := .invalid }]
    page_size := 4096
    page_type_mask := 2
    validator := fun _ => true }

/-- The shape of a slot's validity, forgetting the buffer bytes:
`0` invalid, `1` valid, `2` valid-hole. -/
def validity_kind : PageValidity → Nat
  | .invalid => 0
  | .valid _ => 1
  | .validHole => 2

/-- A slot's identity: its base address and validity shape. The write
path may change a slot's buffer bytes but never its key. -/
def entry_key (e : CacheEntry) : Nat × Nat := (e.address, validity_kind e.validity)

/-- Observable events of one batched cache operation, in program order. -/
inductive CEvent where
  | updateValidity
  | arenaReset
  | arenaAlloc
  | isValid (slot : Nat)
  | cacheCopy
  | backendCall
deriving DecidableEq, Repr

/-- Does `cached_page_mut` find a usable valid page for this address? -/
def PageCache.read_hit (c : PageCache) (paddr : Nat) : Bool :=
  match (c.cached_page_mut paddr).validity with
  | .valid _ => true
  | _ => false

/-- Modelled from the spec (4.3, read path): the events of
`PageCache::cached_read` — per masked page chunk, consult the validator
for the slot, then copy on a hit or arena-allocate a scratch page on a
miss; then one batched backend call. Read requests are
`(address, buffer length)`. -/
def cachedReadTrace (c : PageCache) (reads : List (PhysicalAddress × Nat)) :
    List CEvent :=
  (reads.flatMap fun r =>
    if c.is_cached_page_type r.1.page_type then
      (pageChunks r.1.address c.page_size (List.replicate r.2 0)).flatMap fun pc =>
        .isValid (c.slot_idx pc.1) ::
          (if c.read_hit pc.1 then [.cacheCopy] else [.arenaAlloc])
    else []) ++ [.backendCall]

/-- The events of `CachedMemoryAccess::phys_read_iter` in the order of
the source (lines 33–35): `update_validity`, then the arena reset, then
`cached_read`. -/
def phys_read_iter_trace (c : PageCache)
    (reads : List (PhysicalAddress × Nat)) : List CEvent :=
  .updateValidity :: .arenaReset :: cachedReadTrace c reads

/-- The events of `CachedMemoryAccess::phys_write_iter` in the order of
the source (lines 38–60): `update_validity`, then per masked chunk the
validator consultation inside `cached_page_mut`, then the forwarding
backend call. The write path never touches the arena. -/
def phys_write_iter_trace (c : PageCache)
    (writes : List (PhysicalAddress × List Nat)) : List CEvent :=
  .updateValidity ::
    ((writes.flatMap fun w =>
      if c.is_cached_page_type w.1.page_type then
        (pageChunks w.1.address c.page_size w.2).map
          (fun pc => .isValid (c.slot_idx pc.1))
      else []) ++ [.backendCall])

/-- The memflow error type of `memflow/src/mem/phys_mem.rs`:
`Error(ErrorOrigin, ErrorKind)`, restricted to the origin and kind the
string reader can produce. -/
inductive ErrorOrigin where
  | physicalMemory
deriving DecidableEq, Repr

/-- The error kind produced by `phys_read_char_string`. -/
inductive ErrorKind where
  | outOfBounds
deriving DecidableEq, Repr

/-- The memflow error value `Error(origin, kind)`. -/
structure MfError where
  origin : ErrorOrigin
  kind : ErrorKind
deriving DecidableEq, Repr

/-- The first `L` backend bytes from `addr`: the buffer contents after
`phys_read_raw_into(addr, buf)` with `buf.len() = L`. -/
def bufRead (mem : Mem) (addr L : Nat) : List Nat :=
  (List.range L).map (fun i => mem (addr + i))

/-- Index of the first zero of `f` below `L`, scanning left to right:
`buf.iter().enumerate().find(c == 0)` on the buffer `f 0, …, f (L-1)`. -/
def firstZeroAux (f : Nat → Nat) : Nat → Option Nat
  | 0 => none
  | l + 1 =>
    match firstZeroAux f l with
    | some n => some n
    | none => if f l = 0 then some l else none

/-- The loop of `PhysicalMemory::phys_read_char_string` from
`memflow/src/mem/phys_mem.rs`: read `L` bytes; return the bytes before
the first null if one is found; stop with `OutOfBounds` once
`L * 2 > 4096`; otherwise double the buffer and retry. The result
carries the raw bytes (the lossy UTF-8 decoding of the source is not
modelled). -/
def phys_read_char_string_loop (mem : Mem) (addr : Nat) (L : Nat)
    (h : 0 < L) : Except MfError (List Nat) :=
  match firstZeroAux (fun i => mem (addr + i)) L with
  | some n => .ok (bufRead mem addr n)
  | none =>
    if hL : L * 2 > 4096 then
      .error { origin := .physicalMemory, kind := .outOfBounds }
    else
      phys_read_char_string_loop mem addr (L * 2) (by omega)
termination_by 4097 - L
decreasing_by omega

/-- `PhysicalMemory::phys_read_char_string`: the loop entered with a
32-byte buffer. -/
def phys_read_char_string (mem : Mem) (addr : Nat) :
    Except MfError (List Nat) :=
  phys_read_char_string_loop mem addr 32 (by omega)

/-- C4: encode/decode round-trip — `try_from (as_u8 A) = Ok A` for every
architecture, and `try_from b` is the `Invalid Architecture value` error
for every byte outside the tag set `{0, 1, 2, 3}`. -/
theorem c4_architecture_roundtrip :
    (∀ A : Architecture, Architecture.try_from A.as_u8 = .ok A) ∧
    (∀ b : Nat, 3 < b →
      Architecture.try_from b = .error "Invalid Architecture value") := by
  constructor
  · intro A
    cases A <;> rfl
  · intro b hb
    match b, hb with
    | (n + 4), _ => rfl

/-- C4 witness: the round-trip at `X86Pae` and the rejection at byte 7. -/
theorem c4_architecture_roundtrip_witness :
    Architecture.try_from Architecture.X86Pae.as_u8 = .ok .X86Pae ∧
    Architecture.try_from 7 = .error "Invalid Architecture value" :=
  ⟨c4_architecture_roundtrip.1 .X86Pae, c4_architecture_roundtrip.2 7 (by decide)⟩

/-- C5: the x86_64 MMU spec has splits `[9, 9, 9, 9, 12]`, valid final
page steps `{2, 3, 4}`, a 52-bit physical address space, and 8-byte PTEs. -/
theorem c5_x64_mmu_spec :
    x64.get_mmu_spec.virtual_address_splits = [9, 9, 9, 9, 12] ∧
    x64.get_mmu_spec.valid_final_page_steps = [2, 3, 4] ∧
    x64.get_mmu_spec.address_space_bits = 52 ∧
    x64.get_mmu_spec.pte_size = 8 :=
  ⟨rfl, rfl, rfl, rfl⟩

section EngineLemmas

variable (s : ArchMMUSpec) (mem : Mem)

lemma resolve_slots_cons (step : Nat) (e : Nat × Nat × Nat)
    (w : List (Nat × Nat × Nat)) (out : List (Option TransResult)) :
    s.resolve_slots mem step (e :: w) out =
      s.resolve_slots mem step w
        (match s.step_resolved mem step e.2.1 e.2.2 with
         | some r => out.set e.1 (some r)
         | none => out) := rfl

lemma resolve_slots_length (step : Nat) :
    ∀ (w : List (Nat × Nat × Nat)) (out : List (Option TransResult)),
      (s.resolve_slots mem step w out).length = out.length := by
  intro w
  induction w with
  | nil => intro out; rfl
  | cons e w ih =>
    intro out
    rw [resolve_slots_cons, ih]
    cases h : s.step_resolved mem step e.2.1 e.2.2 <;> simp

lemma resolve_slots_getElem_not_mem (step i : Nat) :
    ∀ (w : List (Nat × Nat × Nat)) (out : List (Option TransResult)),
      i ∉ w.map (fun e => e.1) →
      (s.resolve_slots mem step w out)[i]? = out[i]? := by
  intro w
  induction w with
  | nil => intro out _; rfl
  | cons e w ih =>
    intro out hi
    simp only [List.map_cons, List.mem_cons] at hi
    push_neg at hi
    rw [resolve_slots_cons, ih _ hi.2]
    cases h : s.step_resolved mem step e.2.1 e.2.2 with
    | none => rfl
    | some r => simp [List.getElem?_set_ne (Ne.symm hi.1)]

lemma resolve_slots_getElem_resolved (step i v f : Nat) (r : TransResult)
    (hr : s.step_resolved mem step v f = some r) :
    ∀ (w : List (Nat × Nat × Nat)) (out : List (Option TransResult)),
      (i, v, f) ∈ w → (w.map (fun e => e.1)).Nodup → i < out.length →
      (s.resolve_slots mem step w out)[i]? = some (some r) := by
  intro w
  induction w with
  | nil => intro out hmem; cases hmem
  | cons e w ih =>
    intro out hmem hnd hi
    rw [resolve_slots_cons]
    rcases List.mem_cons.mp hmem with heq | hmem2
    · subst heq
      simp only [List.map_cons, List.nodup_cons] at hnd
      rw [hr]
      rw [resolve_slots_getElem_not_mem s mem step i w _ hnd.1]
      exact List.getElem?_set_self (by simpa using hi)
    · have hiw : i ∈ w.map (fun e => e.1) :=
        List.mem_map.mpr ⟨(i, v, f), hmem2, rfl⟩
      simp only [List.map_cons, List.nodup_cons] at hnd
      have hne : e.1 ≠ i := fun hc => hnd.1 (hc ▸ hiw)
      cases h : s.step_resolved mem step e.2.1 e.2.2 with
      | none => exact ih _ hmem2 hnd.2 hi
      | some r2 => exact ih _ hmem2 hnd.2 (by simpa using hi)

lemma resolve_slots_getElem_next (step i v f : Nat)
    (hr : s.step_resolved mem step v f = none) :
    ∀ (w : List (Nat × Nat × Nat)) (out : List (Option TransResult)),
      (i, v, f) ∈ w → (w.map (fun e => e.1)).Nodup →
      (s.resolve_slots mem step w out)[i]? = out[i]? := by
  intro w
  induction w with
  | nil => intro out hmem; cases hmem
  | cons e w ih =>
    intro out hmem hnd
    rw [resolve_slots_cons]
    rcases List.mem_cons.mp hmem with heq | hmem2
    · subst heq
      simp only [List.map_cons, List.nodup_cons] at hnd
      rw [hr]
      exact resolve_slots_getElem_not_mem s mem step i w _ hnd.1
    · have hiw : i ∈ w.map (fun e => e.1) :=
        List.mem_map.mpr ⟨(i, v, f), hmem2, rfl⟩
      simp only [List.map_cons, List.nodup_cons] at hnd
      have hne : e.1 ≠ i := fun hc => hnd.1 (hc ▸ hiw)
      cases h : s.step_resolved mem step e.2.1 e.2.2 with
      | none => exact ih _ hmem2 hnd.2
      | some r2 =>
        rw [ih _ hmem2 hnd.2]
        exact List.getElem?_set_ne hne

lemma advance_set_map_fst_sublist (step : Nat) (w : List (Nat × Nat × Nat)) :
    ((s.advance_set mem step w).map (fun e => e.1)).Sublist
      (w.map (fun e => e.1)) := by
  induction w with
  | nil => simp [ArchMMUSpec.advance_set]
  | cons e w ih =>
    unfold ArchMMUSpec.advance_set
    unfold ArchMMUSpec.advance_set at ih
    rw [List.filterMap_cons]
    cases h : s.vtop_step mem step e.2.1 e.2.2 with
    | next f2 =>
      simp only [h, List.map_cons]
      exact List.Sublist.cons₂ _ ih
    | fail err =>
      simp only [h]
      exact List.Sublist.cons _ ih
    | leaf pa =>
      simp only [h]
      exact List.Sublist.cons _ ih

lemma advance_set_mem (step i v f f2 : Nat) (w : List (Nat × Nat × Nat))
    (hmem : (i, v, f) ∈ w) (h : s.vtop_step mem step v f = .next f2) :
    (i, v, f2) ∈ s.advance_set mem step w :=
  List.mem_filterMap.mpr ⟨(i, v, f), hmem, by simp [h]⟩

lemma advance_set_mem_rev (step : Nat) (w : List (Nat × Nat × Nat))
    (e2 : Nat × Nat × Nat) (h : e2 ∈ s.advance_set mem step w) :
    ∃ f, (e2.1, e2.2.1, f) ∈ w ∧
      s.vtop_step mem step e2.2.1 f = .next e2.2.2 := by
  rcases List.mem_filterMap.mp h with ⟨a, ha, hfa⟩
  cases hv : s.vtop_step mem step a.2.1 a.2.2 with
  | next f2 =>
    rw [hv] at hfa
    simp only [Option.some.injEq] at hfa
    refine ⟨a.2.2, ?_, ?_⟩
    · rw [← hfa]; exact ha
    · rw [← hfa]; simpa using hv
  | fail err => rw [hv] at hfa; cases hfa
  | leaf pa => rw [hv] at hfa; cases hfa

lemma not_mem_advance_slots (step i v f : Nat) (w : List (Nat × Nat × Nat))
    (hmem : (i, v, f) ∈ w) (hnd : (w.map (fun e => e.1)).Nodup)
    (h : ∀ f2, s.vtop_step mem step v f ≠ .next f2) :
    i ∉ (s.advance_set mem step w).map (fun e => e.1) := by
  intro hin
  rcases List.mem_map.mp hin with ⟨e2, he2, he2i⟩
  rcases advance_set_mem_rev s mem step w e2 he2 with ⟨f3, hmem3, hstep3⟩
  rw [he2i] at hmem3
  have heq := List.inj_on_of_nodup_map hnd hmem hmem3 rfl
  simp only [Prod.mk.injEq, true_and] at heq
  rw [← heq.1, ← heq.2] at hstep3
  exact h e2.2.2 hstep3

lemma run_steps_length :
    ∀ (steps : List Nat) (w : List (Nat × Nat × Nat))
      (out : List (Option TransResult)),
      (s.run_steps mem steps w out).length = out.length := by
  intro steps
  induction steps with
  | nil => intro w out; rfl
  | cons st steps ih =>
    intro w out
    simp only [ArchMMUSpec.run_steps]
    rw [ih, resolve_slots_length]

lemma run_steps_spec (steps : List Nat) :
    ∀ (w : List (Nat × Nat × Nat)) (out : List (Option TransResult)),
      (w.map (fun e => e.1)).Nodup →
      (∀ e ∈ w, e.1 < out.length) →
      (∀ e ∈ w, out[e.1]? = some none) →
      (∀ i v f, (i, v, f) ∈ w →
        (s.run_steps mem steps w out)[i]? =
          some (s.walk_from mem v steps f)) ∧
      (∀ i, i ∉ w.map (fun e => e.1) →
        (s.run_steps mem steps w out)[i]? = out[i]?) := by
  induction steps with
  | nil =>
    intro w out hnd hlen hinit
    refine ⟨?_, ?_⟩
    · intro i v f hmem
      simpa [ArchMMUSpec.run_steps, ArchMMUSpec.walk_from] using hinit _ hmem
    · intro i _; rfl
  | cons st steps ih =>
    intro w out hnd hlen hinit
    have hnd2 : ((s.advance_set mem st w).map (fun e => e.1)).Nodup :=
      (advance_set_map_fst_sublist s mem st w).nodup hnd
    have hsub : ∀ j, j ∈ (s.advance_set mem st w).map (fun e => e.1) →
        j ∈ w.map (fun e => e.1) :=
      fun j hj => (advance_set_map_fst_sublist s mem st w).subset hj
    have hlenr : (s.resolve_slots mem st w out).length = out.length :=
      resolve_slots_length s mem st w out
    have hlen2 : ∀ e ∈ s.advance_set mem st w,
        e.1 < (s.resolve_slots mem st w out).length := by
      intro e he
      rw [hlenr]
      rcases advance_set_mem_rev s mem st w e he with ⟨f3, hmem3, _⟩
      exact hlen (e.1, e.2.1, f3) hmem3
    have hinit2 : ∀ e ∈ s.advance_set mem st w,
        (s.resolve_slots mem st w out)[e.1]? = some none := by
      intro e he
      rcases advance_set_mem_rev s mem st w e he with ⟨f3, hmem3, hstep3⟩
      have hrn : s.step_resolved mem st e.2.1 f3 = none := by
        simp [ArchMMUSpec.step_resolved, hstep3]
      rw [resolve_slots_getElem_next s mem st e.1 e.2.1 f3 hrn w out hmem3 hnd]
      exact hinit (e.1, e.2.1, f3) hmem3
    obtain ⟨ih1, ih2⟩ :=
      ih (s.advance_set mem st w) (s.resolve_slots mem st w out) hnd2 hlen2 hinit2
    refine ⟨?_, ?_⟩
    · intro i v f hmem
      simp only [ArchMMUSpec.run_steps]
      cases hv : s.vtop_step mem st v f with
      | next f2 =>
        rw [ih1 i v f2 (advance_set_mem s mem st i v f f2 w hmem hv)]
        simp [ArchMMUSpec.walk_from, hv]
      | fail err =>
        have hr : s.step_resolved mem st v f = some (.error err) := by
          simp [ArchMMUSpec.step_resolved, hv]
        have hni : i ∉ (s.advance_set mem st w).map (fun e => e.1) :=
          not_mem_advance_slots s mem st i v f w hmem hnd (by simp [hv])
        rw [ih2 i hni]
        rw [resolve_slots_getElem_resolved s mem st i v f _ hr w out hmem hnd
          (hlen _ hmem)]
        simp [ArchMMUSpec.walk_from, hv]
      | leaf pa =>
        have hr : s.step_resolved mem st v f = some (.ok pa) := by
          simp [ArchMMUSpec.step_resolved, hv]
        have hni : i ∉ (s.advance_set mem st w).map (fun e => e.1) :=
          not_mem_advance_slots s mem st i v f w hmem hnd (by simp [hv])
        rw [ih2 i hni]
        rw [resolve_slots_getElem_resolved s mem st i v f _ hr w out hmem hnd
          (hlen _ hmem)]
        simp [ArchMMUSpec.walk_from, hv]
    · intro i hni
      simp only [ArchMMUSpec.run_steps]
      rw [ih2 i (fun h => hni (hsub i h))]
      exact resolve_slots_getElem_not_mem s mem st i w out hni

lemma virt_to_phys_iter_length (dtb : Nat) (addrs : List Nat) :
    (s.virt_to_phys_iter mem dtb addrs).length = addrs.length := by
  unfold ArchMMUSpec.virt_to_phys_iter
  rw [run_steps_length]
  simp

lemma virt_to_phys_iter_getElem (dtb : Nat) (addrs : List Nat) (i : Nat)
    (h : i < addrs.length) :
    (s.virt_to_phys_iter mem dtb addrs)[i]? =
      some (s.virt_to_phys_single mem dtb addrs[i]) := by
  unfold ArchMMUSpec.virt_to_phys_iter ArchMMUSpec.virt_to_phys_single
  have hmap : ((addrs.enum.map (fun p => (p.1, p.2, dtb))).map
      (fun e => e.1)) = List.range addrs.length := by
    rw [List.map_map]
    exact List.enum_map_fst addrs
  have hnd : ((addrs.enum.map (fun p => (p.1, p.2, dtb))).map
      (fun e => e.1)).Nodup := by
    rw [hmap]; exact List.nodup_range _
  have hlen : ∀ e ∈ addrs.enum.map (fun p => (p.1, p.2, dtb)),
      e.1 < (addrs.map (fun _ => (none : Option TransResult))).length := by
    intro e he
    rcases List.mem_map.mp he with ⟨p, hp, rfl⟩
    have hp2 := List.mem_enum_iff_getElem?.mp hp
    simp only [List.length_map]
    exact (List.getElem?_eq_some.mp hp2).1
  have hinit : ∀ e ∈ addrs.enum.map (fun p => (p.1, p.2, dtb)),
      (addrs.map (fun _ => (none : Option TransResult)))[e.1]? = some none := by
    intro e he
    rcases List.mem_map.mp he with ⟨p, hp, rfl⟩
    have hp2 := List.mem_enum_iff_getElem?.mp hp
    have hlt := (List.getElem?_eq_some.mp hp2).1
    simp [List.getElem?_eq_getElem, hlt]
  obtain ⟨h1, _⟩ := run_steps_spec s mem (List.range' 1 s.table_steps) _ _ hnd hlen hinit
  apply h1 i addrs[i] dtb
  apply List.mem_map.mpr
  refine ⟨(i, addrs[i]), ?_, rfl⟩
  exact List.mem_enum_iff_getElem?.mpr (by simp [List.getElem?_eq_getElem h])

lemma virt_to_phys_iter_singleton (dtb v : Nat) :
    s.virt_to_phys_iter mem dtb [v] = [s.virt_to_phys_single mem dtb v] := by
  apply List.ext_getElem?
  intro n
  match n with
  | 0 =>
    rw [virt_to_phys_iter_getElem s mem dtb [v] 0 (by simp)]
    rfl
  | n + 1 =>
    rw [List.getElem?_eq_none
        (show (s.virt_to_phys_iter mem dtb [v]).length ≤ n + 1 by
          rw [virt_to_phys_iter_length]; simp),
      List.getElem?_eq_none (by simp)]

lemma spec_virt_to_phys_pop (dtb v : Nat) :
    (match (s.virt_to_phys_iter mem dtb [v]).getLast? with
     | some r => r
     | none => none) = s.virt_to_phys_single mem dtb v := by
  rw [virt_to_phys_iter_singleton]
  rfl

end EngineLemmas

lemma arch_virt_to_phys_iter_length (a : Architecture) (mem : Mem)
    (dtb : Nat) (addrs : List Nat) :
    (a.virt_to_phys_iter mem dtb addrs).length = addrs.length := by
  cases a <;>
    simp [Architecture.virt_to_phys_iter, virt_to_phys_iter_length]

lemma null_virt_to_phys (mem : Mem) (dtb v : Nat) :
    Architecture.virt_to_phys .Null mem dtb v =
      some (.ok (PhysicalAddress.from v)) := rfl

lemma arch_iter_getElem (a : Architecture) (mem : Mem) (dtb : Nat)
    (addrs : List Nat) (i : Nat) (h : i < addrs.length) :
    (a.virt_to_phys_iter mem dtb addrs)[i]? =
      some (a.virt_to_phys mem dtb addrs[i]) := by
  cases a with
  | Null =>
    rw [null_virt_to_phys]
    simp [Architecture.virt_to_phys_iter, List.getElem?_eq_getElem h]
  | X64 =>
    show (x64.get_mmu_spec.virt_to_phys_iter mem dtb addrs)[i]? = _
    rw [virt_to_phys_iter_getElem x64.get_mmu_spec mem dtb addrs i h]
    exact congrArg some (spec_virt_to_phys_pop x64.get_mmu_spec mem dtb addrs[i]).symm
  | X86Pae =>
    show (x86_pae.get_mmu_spec.virt_to_phys_iter mem dtb addrs)[i]? = _
    rw [virt_to_phys_iter_getElem x86_pae.get_mmu_spec mem dtb addrs i h]
    exact congrArg some (spec_virt_to_phys_pop x86_pae.get_mmu_spec mem dtb addrs[i]).symm
  | X86 =>
    show (x86.get_mmu_spec.virt_to_phys_iter mem dtb addrs)[i]? = _
    rw [virt_to_phys_iter_getElem x86.get_mmu_spec mem dtb addrs i h]
    exact congrArg some (spec_virt_to_phys_pop x86.get_mmu_spec mem dtb addrs[i]).symm

lemma readWord_zeroMem (n : Nat) : ∀ a, readWord zeroMem a n = 0 := by
  induction n with
  | zero => intro a; rfl
  | succ n ih => intro a; simp [readWord, zeroMem, ih]

lemma vtop_step_zeroMem (s : ArchMMUSpec) (step v frame : Nat) :
    s.vtop_step zeroMem step v frame = .fail .pageNotPresent := by
  simp [ArchMMUSpec.vtop_step, readWord_zeroMem, Nat.zero_testBit]

lemma walk_from_zeroMem (s : ArchMMUSpec) (v frame st : Nat) (steps : List Nat) :
    s.walk_from zeroMem v (st :: steps) frame =
      some (.error .pageNotPresent) := by
  simp [ArchMMUSpec.walk_from, vtop_step_zeroMem]

/-- C1: the Null architecture translates identically — `virt_to_phys_iter`
emits exactly one `Ok(PhysicalAddress::from(v))` per input, the emitted
page type is `UNKNOWN`, and `virt_to_phys` on Null never fails. -/
theorem c1_null_identity :
    (∀ (mem : Mem) (dtb : Nat) (addrs : List Nat),
      Architecture.virt_to_phys_iter .Null mem dtb addrs =
        addrs.map (fun v => some (.ok (PhysicalAddress.from v)))) ∧
    (∀ v : Nat, (PhysicalAddress.from v).page_type = PageType.UNKNOWN) ∧
    (∀ (mem : Mem) (dtb v : Nat),
      Architecture.virt_to_phys .Null mem dtb v =
        some (.ok (PhysicalAddress.from v))) :=
  ⟨fun _ _ _ => rfl, fun _ => rfl, fun mem dtb v => null_virt_to_phys mem dtb v⟩

/-- C2: for every architecture, backend, DTB and batch, the i-th per-slot
result of `virt_to_phys_iter` equals the result of `virt_to_phys` on the
i-th address alone. -/
theorem c2_batch_matches_single (a : Architecture) (mem : Mem) (dtb : Nat)
    (addrs : List Nat) (i : Nat) (h : i < addrs.length) :
    (a.virt_to_phys_iter mem dtb addrs)[i]? =
      some (a.virt_to_phys mem dtb addrs[i]) :=
  arch_iter_getElem a mem dtb addrs i h

/-- C2 witness: slot 0 of the singleton x64 batch over the all-zero
backend agrees with the single-address translation. -/
theorem c2_batch_matches_single_witness :
    (Architecture.virt_to_phys_iter .X64 zeroMem 0 [5])[0]? =
      some (Architecture.virt_to_phys .X64 zeroMem 0 (([5] : List Nat)[0])) :=
  c2_batch_matches_single .X64 zeroMem 0 [5] 0 (by decide)

/-- C3: the batched translator always returns one per-slot result per
input (the output vector corresponds positionally to the batch), and the
batched call itself succeeds even when every slot fails to translate:
over the all-zero backend every x64 slot holds `Err(PageNotPresent)` and
the output vector is still full-length. -/
theorem c3_per_slot_errors :
    (∀ (a : Architecture) (mem : Mem) (dtb : Nat) (addrs : List Nat),
      (a.virt_to_phys_iter mem dtb addrs).length = addrs.length) ∧
    (∀ (dtb : Nat) (addrs : List Nat),
      Architecture.virt_to_phys_iter .X64 zeroMem dtb addrs =
        addrs.map (fun _ => some (.error .pageNotPresent))) := by
  refine ⟨arch_virt_to_phys_iter_length, ?_⟩
  intro dtb addrs
  apply List.ext_getElem?
  intro n
  by_cases hn : n < addrs.length
  · rw [arch_iter_getElem .X64 zeroMem dtb addrs n hn]
    have hsingle : Architecture.virt_to_phys .X64 zeroMem dtb addrs[n] =
        some (.error .pageNotPresent) := by
      have hpop := spec_virt_to_phys_pop x64.get_mmu_spec zeroMem dtb addrs[n]
      have hx : Architecture.virt_to_phys .X64 zeroMem dtb addrs[n] =
          x64.get_mmu_spec.virt_to_phys_single zeroMem dtb addrs[n] := hpop
      rw [hx]
      unfold ArchMMUSpec.virt_to_phys_single
      exact walk_from_zeroMem x64.get_mmu_spec addrs[n] dtb 1 [2, 3, 4]
    rw [hsingle]
    simp [List.getElem?_replicate, hn]
  · push_neg at hn
    rw [List.getElem?_eq_none
        (show (Architecture.virt_to_phys_iter .X64 zeroMem dtb addrs).length ≤ n by
          rw [arch_virt_to_phys_iter_length]; omega),
      List.getElem?_eq_none (by simpa using hn)]

/-- C9: `CachedMemoryAccessBuilder::build` succeeds exactly when `mem`,
`page_size` and `validator` have all been set (and errors otherwise);
`cache_size` and `page_type_mask` are never required — overriding them
never changes whether `build` succeeds. -/
theorem c9_builder_requirements (b : CachedMemoryAccessBuilder) :
    ((∃ v, b.build = .ok v) ↔
      b.mem.isSome ∧ b.page_size.isSome ∧ b.validator.isSome) ∧
    (∀ cs mask : Nat,
      (∃ v, ((b.set_cache_size cs).set_page_type_mask mask).build = .ok v) ↔
        ∃ v, b.build = .ok v) := by
  have key : ∀ b2 : CachedMemoryAccessBuilder,
      (∃ v, b2.build = .ok v) ↔
        b2.mem.isSome ∧ b2.page_size.isSome ∧ b2.validator.isSome := by
    intro b2
    rcases hm : b2.mem with _ | m <;> rcases hp : b2.page_size with _ | ps <;>
      rcases hv : b2.validator with _ | val <;>
        simp [CachedMemoryAccessBuilder.build, hm, hp, hv]
  refine ⟨key b, ?_⟩
  intro cs mask
  rw [key _, key b]
  simp [CachedMemoryAccessBuilder.set_cache_size,
    CachedMemoryAccessBuilder.set_page_type_mask]

lemma firstZeroAux_none (f : Nat → Nat) :
    ∀ L, firstZeroAux f L = none → ∀ i < L, f i ≠ 0 := by
  intro L
  induction L with
  | zero => intro _ i hi; omega
  | succ l ih =>
    intro h i hi
    unfold firstZeroAux at h
    cases hz : firstZeroAux f l with
    | some m => rw [hz] at h; cases h
    | none =>
      rw [hz] at h
      by_cases hf : f l = 0
      · rw [if_pos hf] at h; cases h
      · rcases Nat.lt_succ_iff_lt_or_eq.mp hi with hlt | heq
        · exact ih hz i hlt
        · rw [heq]; exact hf

lemma firstZeroAux_some (f : Nat → Nat) :
    ∀ L n, firstZeroAux f L = some n →
      n < L ∧ f n = 0 ∧ ∀ i < n, f i ≠ 0 := by
  intro L
  induction L with
  | zero => intro n h; cases h
  | succ l ih =>
    intro n h
    unfold firstZeroAux at h
    cases hz : firstZeroAux f l with
    | some m =>
      rw [hz] at h
      injection h with h0
      subst h0
      obtain ⟨h1, h2, h3⟩ := ih m hz
      exact ⟨Nat.lt_succ_of_lt h1, h2, h3⟩
    | none =>
      rw [hz] at h
      by_cases hf : f l = 0
      · rw [if_pos hf] at h
        injection h with h0
        subst h0
        exact ⟨Nat.lt_succ_self _, hf, firstZeroAux_none f l hz⟩
      · rw [if_neg hf] at h; cases h

lemma char_string_loop_spec :
    ∀ j : Nat, j ≤ 7 → ∀ (mem : Mem) (addr : Nat) (h : 0 < 2 ^ (12 - j)),
      (∃ n, n < 4096 ∧ mem (addr + n) = 0 ∧ (∀ i < n, mem (addr + i) ≠ 0) ∧
        phys_read_char_string_loop mem addr (2 ^ (12 - j)) h =
          .ok (bufRead mem addr n)) ∨
      ((∀ i < 4096, mem (addr + i) ≠ 0) ∧
        phys_read_char_string_loop mem addr (2 ^ (12 - j)) h =
          .error { origin := .physicalMemory, kind := .outOfBounds }) := by
  intro j
  induction j with
  | zero =>
    intro _ mem addr h
    cases hz : firstZeroAux (fun i => mem (addr + i)) (2 ^ (12 - 0)) with
    | some n =>
      left
      obtain ⟨h1, h2, h3⟩ := firstZeroAux_some _ _ _ hz
      refine ⟨n, by omega, h2, h3, ?_⟩
      unfold phys_read_char_string_loop
      simp only [hz]
    | none =>
      right
      have hall := firstZeroAux_none _ _ hz
      refine ⟨fun i hi => hall i (by norm_num; omega), ?_⟩
      unfold phys_read_char_string_loop
      simp only [hz]
      rw [dif_pos (by norm_num)]
  | succ j ih =>
    intro hj mem addr h
    cases hz : firstZeroAux (fun i => mem (addr + i)) (2 ^ (12 - (j + 1))) with
    | some n =>
      left
      obtain ⟨h1, h2, h3⟩ := firstZeroAux_some _ _ _ hz
      have hle : 2 ^ (12 - (j + 1)) ≤ 4096 := by
        calc 2 ^ (12 - (j + 1)) ≤ 2 ^ 12 := Nat.pow_le_pow_right (by omega) (by omega)
        _ = 4096 := by norm_num
      refine ⟨n, by omega, h2, h3, ?_⟩
      unfold phys_read_char_string_loop
      simp only [hz]
    | none =>
      have hexp : 2 ^ (12 - (j + 1)) * 2 = 2 ^ (12 - j) := by
        rw [← Nat.pow_succ]
        congr 1
        omega
      have hnotbig : ¬ 2 ^ (12 - (j + 1)) * 2 > 4096 := by
        rw [hexp]
        have : 2 ^ (12 - j) ≤ 2 ^ 12 := Nat.pow_le_pow_right (by omega) (by omega)
        norm_num
        omega
      have hstep : ∀ (L L2 : Nat) (hL : 0 < L) (hL2 : 0 < L2), L * 2 = L2 →
          firstZeroAux (fun i => mem (addr + i)) L = none →
          ¬ L * 2 > 4096 →
          phys_read_char_string_loop mem addr L hL =
            phys_read_char_string_loop mem addr L2 hL2 := by
        intro L L2 hL hL2 heq hz2 hnb
        subst heq
        conv_lhs => unfold phys_read_char_string_loop
        simp only [hz2]
        rw [dif_neg hnb]
      have hrec := hstep (2 ^ (12 - (j + 1))) (2 ^ (12 - j)) h
        (by positivity) hexp hz hnotbig
      rcases ih (by omega) mem addr (by positivity) with
        ⟨n, h1, h2, h3, h4⟩ | ⟨h1, h2⟩
      · exact Or.inl ⟨n, h1, h2, h3, hrec.trans h4⟩
      · exact Or.inr ⟨h1, hrec.trans h2⟩

/-- C10: `phys_read_char_string` terminates for every backend with the
doubling buffer capped at 4096 bytes: if a null byte occurs among the
first 4096 bytes it returns `Ok` with exactly the bytes before the first
null, otherwise it returns the `OutOfBounds` error; every returned
string is shorter than 4096 bytes. -/
theorem c10_char_string_bounds (mem : Mem) (addr : Nat) :
    ((∃ n, n < 4096 ∧ mem (addr + n) = 0 ∧ (∀ i < n, mem (addr + i) ≠ 0) ∧
      phys_read_char_string mem addr = .ok (bufRead mem addr n)) ∨
     ((∀ i < 4096, mem (addr + i) ≠ 0) ∧
      phys_read_char_string mem addr =
        .error { origin := .physicalMemory, kind := .outOfBounds })) ∧
    (∀ s2, phys_read_char_string mem addr = .ok s2 → s2.length < 4096) := by
  have hmain := char_string_loop_spec 7 (by omega) mem addr (by norm_num)
  have hdef : ∀ (h32 : 0 < 2 ^ (12 - 7)),
      phys_read_char_string mem addr =
        phys_read_char_string_loop mem addr (2 ^ (12 - 7)) h32 := by
    intro h32
    rfl
  rw [← hdef (by norm_num)] at hmain
  refine ⟨hmain, ?_⟩
  intro s2 hs2
  rcases hmain with ⟨n, hn, _, _, hval⟩ | ⟨_, hval⟩
  · rw [hval] at hs2
    cases hs2
    simp [bufRead]
    omega
  · rw [hval] at hs2
    cases hs2

/-- C10 witness: over the all-zero backend the first byte is the null
terminator, so the reader returns the empty string, shorter than 4096. -/
theorem c10_char_string_bounds_witness :
    phys_read_char_string zeroMem 0 = .ok [] ∧ ([] : List Nat).length < 4096 := by
  have hz : firstZeroAux (fun i => zeroMem (0 + i)) 32 = some 0 := rfl
  have hok : phys_read_char_string zeroMem 0 = .ok [] := by
    unfold phys_read_char_string phys_read_char_string_loop
    simp only [hz]
    rfl
  exact ⟨hok, (c10_char_string_bounds zeroMem 0).2 [] hok⟩

lemma slot_idx_pageBase (c : PageCache) (paddr : Nat) :
    c.slot_idx (pageBase c.page_size paddr) = c.slot_idx paddr := by
  unfold PageCache.slot_idx pageBase
  rcases Nat.eq_zero_or_pos c.page_size with h | h
  · simp [h]
  · rw [Nat.mul_div_cancel _ h]

lemma cached_page_mut_address (c : PageCache) (paddr : Nat) :
    (c.cached_page_mut paddr).address = pageBase c.page_size paddr := by
  unfold PageCache.cached_page_mut
  dsimp only
  split
  · split <;> rfl
  · rfl

lemma cached_page_mut_hit (c : PageCache) (paddr : Nat) (e : CacheEntry)
    (hslot : c.slots[c.slot_idx paddr]? = some e)
    (haddr : e.address = pageBase c.page_size paddr)
    (hval : c.validator (c.slot_idx paddr) = true) :
    c.cached_page_mut paddr =
      { address := pageBase c.page_size paddr, validity := e.validity } := by
  unfold PageCache.cached_page_mut
  dsimp only
  rw [hslot]
  dsimp only
  rw [if_pos ⟨haddr, hval⟩]

lemma cached_page_mut_valid_inv (c : PageCache) (paddr : Nat) (buf : List Nat)
    (h : (c.cached_page_mut paddr).validity = .valid buf) :
    ∃ e, c.slots[c.slot_idx paddr]? = some e ∧
      e.address = pageBase c.page_size paddr ∧
      c.validator (c.slot_idx paddr) = true ∧ e.validity = .valid buf := by
  unfold PageCache.cached_page_mut at h
  dsimp only at h
  cases hs : c.slots[c.slot_idx paddr]? with
  | none => rw [hs] at h; cases h
  | some e =>
    rw [hs] at h
    dsimp only at h
    by_cases hc : e.address = pageBase c.page_size paddr ∧
        c.validator (c.slot_idx paddr) = true
    · rw [if_pos hc] at h
      exact ⟨e, rfl, hc.1, hc.2, h⟩
    · rw [if_neg hc] at h
      cases h

lemma write_chunk_static (c : PageCache) (paddr : Nat) (chunk : List Nat) :
    (c.write_chunk paddr chunk).page_size = c.page_size ∧
    (c.write_chunk paddr chunk).page_type_mask = c.page_type_mask ∧
    (c.write_chunk paddr chunk).validator = c.validator := by
  unfold PageCache.write_chunk PageCache.put_entry
  dsimp only
  split
  · exact ⟨rfl, rfl, rfl⟩
  · split <;> exact ⟨rfl, rfl, rfl⟩

lemma write_chunk_other_slot (c : PageCache) (paddr : Nat) (chunk : List Nat)
    (j : Nat) (hj : j ≠ c.slot_idx paddr) :
    (c.write_chunk paddr chunk).slots[j]? = c.slots[j]? := by
  unfold PageCache.write_chunk
  dsimp only
  cases hv : (c.cached_page_mut paddr).validity with
  | valid buf =>
    unfold PageCache.put_entry
    dsimp only
    rw [List.getElem?_set_ne]
    show c.slot_idx (c.cached_page_mut paddr).address ≠ j
    rw [cached_page_mut_address, slot_idx_pageBase]
    exact Ne.symm hj
  | invalid =>
    unfold PageCache.put_entry
    rw [hv]
  | validHole =>
    unfold PageCache.put_entry
    rw [hv]

lemma write_chunk_hit_slot (c : PageCache) (paddr : Nat) (chunk : List Nat)
    (e : CacheEntry) (buf : List Nat)
    (hslot : c.slots[c.slot_idx paddr]? = some e)
    (haddr : e.address = pageBase c.page_size paddr)
    (hval : c.validator (c.slot_idx paddr) = true)
    (hbuf : e.validity = .valid buf) :
    (c.write_chunk paddr chunk).slots =
      c.slots.set (c.slot_idx paddr)
        { address := pageBase c.page_size paddr
          validity :=
            .valid (listOverwrite buf (paddr - pageBase c.page_size paddr) chunk) } := by
  unfold PageCache.write_chunk
  rw [cached_page_mut_hit c paddr e hslot haddr hval, hbuf]
  dsimp only
  unfold PageCache.put_entry
  dsimp only
  rw [slot_idx_pageBase]

lemma write_chunk_miss (c : PageCache) (paddr : Nat) (chunk : List Nat)
    (h : ∀ buf, (c.cached_page_mut paddr).validity ≠ .valid buf) :
    c.write_chunk paddr chunk = c := by
  unfold PageCache.write_chunk
  dsimp only
  cases hv : (c.cached_page_mut paddr).validity with
  | valid buf => exact absurd hv (h buf)
  | invalid =>
    unfold PageCache.put_entry
    rw [hv]
  | validHole =>
    unfold PageCache.put_entry
    rw [hv]

lemma write_chunk_key_map (c : PageCache) (paddr : Nat) (chunk : List Nat) :
    (c.write_chunk paddr chunk).slots.map entry_key =
      c.slots.map entry_key := by
  by_cases hhit : ∃ buf, (c.cached_page_mut paddr).validity = .valid buf
  · obtain ⟨buf, hv⟩ := hhit
    obtain ⟨e, hslot, haddr, hval, hbuf⟩ := cached_page_mut_valid_inv c paddr buf hv
    rw [write_chunk_hit_slot c paddr chunk e buf hslot haddr hval hbuf]
    rw [List.map_set]
    have hlt : c.slot_idx paddr < c.slots.length := by
      rcases List.getElem?_eq_some.mp hslot with ⟨hl, _⟩
      exact hl
    apply List.ext_getElem?
    intro n
    by_cases hn : n = c.slot_idx paddr
    · subst hn
      rw [List.getElem?_set_self (by simpa using hlt)]
      have : (c.slots.map entry_key)[c.slot_idx paddr]? = some (entry_key e) := by
        simp [List.getElem?_map, hslot]
      rw [this]
      simp [entry_key, haddr, hbuf, validity_kind]
    · exact List.getElem?_set_ne (Ne.symm hn)
  · push_neg at hhit
    rw [write_chunk_miss c paddr chunk hhit]

lemma write_chunk_slots_length (c : PageCache) (paddr : Nat) (chunk : List Nat) :
    (c.write_chunk paddr chunk).slots.length = c.slots.length := by
  have h := congrArg List.length (write_chunk_key_map c paddr chunk)
  simpa using h

lemma write_chunk_slot_idx (c : PageCache) (paddr : Nat) (chunk : List Nat)
    (p : Nat) : (c.write_chunk paddr chunk).slot_idx p = c.slot_idx p := by
  unfold PageCache.slot_idx
  rw [(write_chunk_static c paddr chunk).1, write_chunk_slots_length]

lemma chunks_fold_key_map :
    ∀ (chunks : List (Nat × List Nat)) (c : PageCache),
      ((chunks.foldl (fun c2 pc => c2.write_chunk pc.1 pc.2) c).slots.map
          entry_key) = c.slots.map entry_key := by
  intro chunks
  induction chunks with
  | nil => intro c; rfl
  | cons pc chunks ih =>
    intro c
    show ((chunks.foldl _ (c.write_chunk pc.1 pc.2)).slots.map entry_key) = _
    rw [ih, write_chunk_key_map]

lemma chunks_fold_static :
    ∀ (chunks : List (Nat × List Nat)) (c : PageCache),
      (chunks.foldl (fun c2 pc => c2.write_chunk pc.1 pc.2) c).page_size =
          c.page_size ∧
        (chunks.foldl (fun c2 pc => c2.write_chunk pc.1 pc.2) c).page_type_mask =
          c.page_type_mask ∧
        (chunks.foldl (fun c2 pc => c2.write_chunk pc.1 pc.2) c).validator =
          c.validator := by
  intro chunks
  induction chunks with
  | nil => intro c; exact ⟨rfl, rfl, rfl⟩
  | cons pc chunks ih =>
    intro c
    obtain ⟨h1, h2, h3⟩ := ih (c.write_chunk pc.1 pc.2)
    obtain ⟨g1, g2, g3⟩ := write_chunk_static c pc.1 pc.2
    exact ⟨h1.trans g1, h2.trans g2, h3.trans g3⟩

lemma write_one_key_map (c : PageCache) (addr : PhysicalAddress)
    (data : List Nat) :
    (c.write_one addr data).slots.map entry_key = c.slots.map entry_key := by
  unfold PageCache.write_one
  split
  · rw [chunks_fold_key_map]
  · rfl

lemma write_one_static (c : PageCache) (addr : PhysicalAddress)
    (data : List Nat) :
    (c.write_one addr data).page_size = c.page_size ∧
    (c.write_one addr data).page_type_mask = c.page_type_mask ∧
    (c.write_one addr data).validator = c.validator := by
  unfold PageCache.write_one
  split
  · exact chunks_fold_static _ c
  · exact ⟨rfl, rfl, rfl⟩

lemma writes_fold_key_map :
    ∀ (writes : List (PhysicalAddress × List Nat)) (c : PageCache),
      ((writes.foldl (fun c2 w => c2.write_one w.1 w.2) c).slots.map
          entry_key) = c.slots.map entry_key := by
  intro writes
  induction writes with
  | nil => intro c; rfl
  | cons w writes ih =>
    intro c
    show ((writes.foldl _ (c.write_one w.1 w.2)).slots.map entry_key) = _
    rw [ih, write_one_key_map]

lemma writes_fold_static :
    ∀ (writes : List (PhysicalAddress × List Nat)) (c : PageCache),
      (writes.foldl (fun c2 w => c2.write_one w.1 w.2) c).page_size =
          c.page_size ∧
        (writes.foldl (fun c2 w => c2.write_one w.1 w.2) c).page_type_mask =
          c.page_type_mask ∧
        (writes.foldl (fun c2 w => c2.write_one w.1 w.2) c).validator =
          c.validator := by
  intro writes
  induction writes with
  | nil => intro c; exact ⟨rfl, rfl, rfl⟩
  | cons w writes ih =>
    intro c
    obtain ⟨h1, h2, h3⟩ := ih (c.write_one w.1 w.2)
    obtain ⟨g1, g2, g3⟩ := write_one_static c w.1 w.2
    exact ⟨h1.trans g1, h2.trans g2, h3.trans g3⟩

lemma write_chunk_slot_unchanged (c : PageCache) (paddr : Nat)
    (chunk : List Nat) (j : Nat) (e : CacheEntry) (he : c.slots[j]? = some e)
    (h : c.slot_idx paddr ≠ j ∨ e.address ≠ pageBase c.page_size paddr ∨
      c.validator j = false ∨ validity_kind e.validity ≠ 1) :
    (c.write_chunk paddr chunk).slots[j]? = some e := by
  by_cases hj : c.slot_idx paddr = j
  · subst hj
    rw [write_chunk_miss c paddr chunk ?_]
    · exact he
    · intro buf hv
      obtain ⟨e2, hslot2, haddr2, hval2, hbuf2⟩ :=
        cached_page_mut_valid_inv c paddr buf hv
      rw [he] at hslot2
      injection hslot2 with heq
      rcases h with h | h | h | h
      · exact h rfl
      · exact h (heq ▸ haddr2)
      · rw [hval2] at h; cases h
      · apply h
        rw [heq, hbuf2]
        rfl
  · rw [write_chunk_other_slot c paddr chunk j (fun hc => hj hc.symm)]
    exact he

lemma chunks_fold_slot_unchanged :
    ∀ (chunks : List (Nat × List Nat)) (c : PageCache) (j : Nat)
      (e : CacheEntry),
      c.slots[j]? = some e →
      (∀ pc ∈ chunks,
        c.slot_idx pc.1 ≠ j ∨ e.address ≠ pageBase c.page_size pc.1 ∨
        c.validator j = false ∨ validity_kind e.validity ≠ 1) →
      (chunks.foldl (fun c2 pc => c2.write_chunk pc.1 pc.2) c).slots[j]? =
        some e := by
  intro chunks
  induction chunks with
  | nil => intro c j e he _; exact he
  | cons pc chunks ih =>
    intro c j e he hcond
    show (chunks.foldl _ (c.write_chunk pc.1 pc.2)).slots[j]? = some e
    apply ih
    · exact write_chunk_slot_unchanged c pc.1 pc.2 j e he
        (hcond pc (List.mem_cons_self pc chunks))
    · intro pc2 hpc2
      have hidx := write_chunk_slot_idx c pc.1 pc.2 pc2.1
      have hps := (write_chunk_static c pc.1 pc.2).1
      have hvald := (write_chunk_static c pc.1 pc.2).2.2
      rcases hcond pc2 (List.mem_cons_of_mem _ hpc2) with h | h | h | h
      · exact Or.inl (by rw [hidx]; exact h)
      · exact Or.inr (Or.inl (by rw [hps]; exact h))
      · exact Or.inr (Or.inr (Or.inl (by rw [hvald]; exact h)))
      · exact Or.inr (Or.inr (Or.inr h))

lemma write_one_slot_unchanged (c : PageCache) (addr : PhysicalAddress)
    (data : List Nat) (j : Nat) (e : CacheEntry) (he : c.slots[j]? = some e)
    (hcond : c.is_cached_page_type addr.page_type = true →
      ∀ pc ∈ pageChunks addr.address c.page_size data,
        c.slot_idx pc.1 ≠ j ∨ e.address ≠ pageBase c.page_size pc.1 ∨
        c.validator j = false ∨ validity_kind e.validity ≠ 1) :
    (c.write_one addr data).slots[j]? = some e := by
  unfold PageCache.write_one
  split
  next hmask => exact chunks_fold_slot_unchanged _ c j e he (hcond hmask)
  next => exact he

lemma write_one_slots_length (c : PageCache) (addr : PhysicalAddress)
    (data : List Nat) :
    (c.write_one addr data).slots.length = c.slots.length := by
  have h := congrArg List.length (write_one_key_map c addr data)
  simpa using h

lemma write_one_slot_idx (c : PageCache) (addr : PhysicalAddress)
    (data : List Nat) (p : Nat) :
    (c.write_one addr data).slot_idx p = c.slot_idx p := by
  unfold PageCache.slot_idx
  rw [(write_one_static c addr data).1, write_one_slots_length]

lemma write_one_mask_pred (c : PageCache) (addr : PhysicalAddress)
    (data : List Nat) (pt : Nat) :
    (c.write_one addr data).is_cached_page_type pt =
      c.is_cached_page_type pt := by
  unfold PageCache.is_cached_page_type
  rw [(write_one_static c addr data).2.1]

lemma writes_fold_slot_unchanged :
    ∀ (writes : List (PhysicalAddress × List Nat)) (c : PageCache) (j : Nat)
      (e : CacheEntry),
      c.slots[j]? = some e →
      (∀ w ∈ writes, c.is_cached_page_type w.1.page_type = true →
        ∀ pc ∈ pageChunks w.1.address c.page_size w.2,
          c.slot_idx pc.1 ≠ j ∨ e.address ≠ pageBase c.page_size pc.1 ∨
          c.validator j = false ∨ validity_kind e.validity ≠ 1) →
      (writes.foldl (fun c2 w => c2.write_one w.1 w.2) c).slots[j]? =
        some e := by
  intro writes
  induction writes with
  | nil => intro c j e he _; exact he
  | cons w writes ih =>
    intro c j e he hcond
    show (writes.foldl _ (c.write_one w.1 w.2)).slots[j]? = some e
    apply ih
    · exact write_one_slot_unchanged c w.1 w.2 j e he
        (hcond w (List.mem_cons_self w writes))
    · intro w2 hw2 hmask2 pc hpc
      rw [write_one_mask_pred] at hmask2
      rw [(write_one_static c w.1 w.2).1] at hpc
      have hidx := write_one_slot_idx c w.1 w.2 pc.1
      have hps := (write_one_static c w.1 w.2).1
      have hvald := (write_one_static c w.1 w.2).2.2
      rcases hcond w2 (List.mem_cons_of_mem _ hw2) hmask2 pc hpc with h | h | h | h
      · exact Or.inl (by rw [hidx]; exact h)
      · exact Or.inr (Or.inl (by rw [hps]; exact h))
      · exact Or.inr (Or.inr (Or.inl (by rw [hvald]; exact h)))
      · exact Or.inr (Or.inr (Or.inr h))

lemma pageChunks_single (base ps : Nat) (data : List Nat)
    (hfit : data.length ≤ ps - base % ps) (hne : data ≠ []) :
    pageChunks base ps data = [(base, data)] := by
  unfold pageChunks
  cases data with
  | nil => exact absurd rfl hne
  | cons d rest =>
    show pageChunksF ps (rest.length + 1) base (d :: rest) = _
    unfold pageChunksF
    dsimp only
    rw [min_eq_left (by simpa using hfit)]
    rw [List.take_length, List.drop_length]
    cases rest with
    | nil => rfl
    | cons d2 rest2 => rfl

lemma listOverwrite_length (buf chunk : List Nat) (start : Nat)
    (h : start + chunk.length ≤ buf.length) :
    (listOverwrite buf start chunk).length = buf.length := by
  simp [listOverwrite]
  omega

lemma sub_pageBase_eq_mod (ps a : Nat) :
    a - pageBase ps a = a % ps := by
  have h1 : a / ps * ps + a % ps = a := Nat.div_add_mod' a ps
  unfold pageBase
  omega

lemma write_one_single_hit (c : PageCache) (addr : PhysicalAddress)
    (data : List Nat) (e : CacheEntry) (buf : List Nat)
    (hmask : c.is_cached_page_type addr.page_type = true)
    (hne : data ≠ [])
    (hfit : data.length ≤ c.page_size - addr.address % c.page_size)
    (hslot : c.slots[c.slot_idx addr.address]? = some e)
    (haddr : e.address = pageBase c.page_size addr.address)
    (hval : c.validator (c.slot_idx addr.address) = true)
    (hbuf : e.validity = .valid buf) :
    (c.write_one addr data).slots =
      c.slots.set (c.slot_idx addr.address)
        { address := pageBase c.page_size addr.address
          validity := .valid
            (listOverwrite buf (addr.address % c.page_size) data) } := by
  unfold PageCache.write_one
  rw [if_pos hmask]
  rw [pageChunks_single addr.address c.page_size data hfit hne]
  show (c.write_chunk addr.address data).slots = _
  rw [write_chunk_hit_slot c addr.address data e buf hslot haddr hval hbuf]
  rw [sub_pageBase_eq_mod]

/-- C6: on the cache write path every write in the batch is forwarded to
the backend; a slot's bytes change only when the write's page type
intersects the cache's mask and the slot already holds the same page
with `Valid` validity, in which case exactly the intersecting bytes are
overwritten in place; writes never allocate or evict cache entries
(every slot keeps its address and validity shape), and all slots not
matched by any write chunk are unchanged. -/
theorem c6_write_path :
    (∀ (x : CachedMemoryAccess) (writes : List (PhysicalAddress × List Nat)),
      (x.phys_write_iter writes).mem =
        writes.foldl (fun m w => storeBytes m w.1.address w.2) x.mem) ∧
    (∀ (x : CachedMemoryAccess) (writes : List (PhysicalAddress × List Nat)),
      (x.phys_write_iter writes).cache.slots.map entry_key =
          x.cache.slots.map entry_key ∧
        (x.phys_write_iter writes).cache.page_size = x.cache.page_size ∧
        (x.phys_write_iter writes).cache.page_type_mask =
          x.cache.page_type_mask) ∧
    (∀ (x : CachedMemoryAccess) (writes : List (PhysicalAddress × List Nat))
      (j : Nat) (e : CacheEntry),
      x.cache.slots[j]? = some e →
      (∀ w ∈ writes, x.cache.is_cached_page_type w.1.page_type = true →
        ∀ pc ∈ pageChunks w.1.address x.cache.page_size w.2,
          x.cache.slot_idx pc.1 ≠ j ∨
          e.address ≠ pageBase x.cache.page_size pc.1 ∨
          x.cache.validator j = false ∨ validity_kind e.validity ≠ 1) →
      (x.phys_write_iter writes).cache.slots[j]? = some e) ∧
    (∀ (x : CachedMemoryAccess) (addr : PhysicalAddress) (data : List Nat)
      (e : CacheEntry) (buf : List Nat),
      x.cache.is_cached_page_type addr.page_type = true →
      data ≠ [] →
      data.length ≤ x.cache.page_size - addr.address % x.cache.page_size →
      x.cache.slots[x.cache.slot_idx addr.address]? = some e →
      e.address = pageBase x.cache.page_size addr.address →
      x.cache.validator (x.cache.slot_idx addr.address) = true →
      e.validity = .valid buf →
      (x.phys_write_iter [(addr, data)]).cache.slots =
        x.cache.slots.set (x.cache.slot_idx addr.address)
          { address := pageBase x.cache.page_size addr.address
            validity := .valid
              (listOverwrite buf (addr.address % x.cache.page_size) data) }) ∧
    (∀ (buf chunk : List Nat) (start : Nat),
      start + chunk.length ≤ buf.length →
      (listOverwrite buf start chunk).length = buf.length) := by
  refine ⟨fun _ _ => rfl, ?_, ?_, ?_, listOverwrite_length⟩
  · intro x writes
    exact ⟨writes_fold_key_map writes x.cache,
      (writes_fold_static writes x.cache).1,
      (writes_fold_static writes x.cache).2.1⟩
  · intro x writes j e he hcond
    exact writes_fold_slot_unchanged writes x.cache j e he hcond
  · intro x addr data e buf hmask hne hfit hslot haddr hval hbuf
    show (x.cache.write_one addr data).slots = _
    exact write_one_single_hit x.cache addr data e buf hmask hne hfit hslot
      haddr hval hbuf

/-- C6 witness: a 2-byte write at offset 1 of the valid page held by
`sampleCache` overwrites exactly bytes 1 and 2 in place. -/
theorem c6_write_path_witness :
    (sampleAccess.phys_write_iter
        [({ address := 1, page_type := 2, page_size := 0 }, [9, 9])]).cache.slots =
      sampleCache.slots.set 0
        { address := 0, validity := .valid (listOverwrite [1, 2, 3, 4] 1 [9, 9]) } := by
  have h := c6_write_path.2.2.2.1 sampleAccess
    { address := 1, page_type := 2, page_size := 0 } [9, 9]
    { address := 0, validity := .valid [1, 2, 3, 4] } [1, 2, 3, 4]
    (by decide) (by decide) (by decide) (by decide) (by decide) (by decide)
    (by decide)
  exact h

lemma read_trace_zero (c : PageCache) (reads : List (PhysicalAddress × Nat)) :
    (phys_read_iter_trace c reads)[0]? = some CEvent.updateValidity :=
  List.getElem?_cons_zero

lemma read_trace_one (c : PageCache) (reads : List (PhysicalAddress × Nat)) :
    (phys_read_iter_trace c reads)[1]? = some CEvent.arenaReset := by
  show (CEvent.updateValidity :: CEvent.arenaReset :: cachedReadTrace c reads)[1]? = _
  rw [List.getElem?_cons_succ, List.getElem?_cons_zero]

lemma write_trace_zero (c : PageCache)
    (writes : List (PhysicalAddress × List Nat)) :
    (phys_write_iter_trace c writes)[0]? = some CEvent.updateValidity :=
  List.getElem?_cons_zero

lemma cachedReadTrace_events (c : PageCache) (reads : List (PhysicalAddress × Nat))
    (ev : CEvent) (h : ev ∈ cachedReadTrace c reads) :
    ev = .backendCall ∨ (∃ sl, ev = .isValid sl) ∨ ev = .cacheCopy ∨
      ev = .arenaAlloc := by
  unfold cachedReadTrace at h
  rcases List.mem_append.mp h with h | h
  · rcases List.mem_flatMap.mp h with ⟨r, _, h2⟩
    by_cases hm : c.is_cached_page_type r.1.page_type
    · rw [if_pos hm] at h2
      rcases List.mem_flatMap.mp h2 with ⟨pc, _, h3⟩
      rcases List.mem_cons.mp h3 with h4 | h4
      · exact Or.inr (Or.inl ⟨c.slot_idx pc.1, h4⟩)
      · by_cases hh : c.read_hit pc.1
        · rw [if_pos hh] at h4
          simp only [List.mem_singleton] at h4
          exact Or.inr (Or.inr (Or.inl h4))
        · rw [if_neg hh] at h4
          simp only [List.mem_singleton] at h4
          exact Or.inr (Or.inr (Or.inr h4))
    · rw [if_neg hm] at h2
      cases h2
  · simp only [List.mem_singleton] at h
    exact Or.inl h

lemma writeTraceTail_events (c : PageCache)
    (writes : List (PhysicalAddress × List Nat)) (ev : CEvent)
    (h : ev ∈ (writes.flatMap fun w =>
      if c.is_cached_page_type w.1.page_type then
        (pageChunks w.1.address c.page_size w.2).map
          (fun pc => CEvent.isValid (c.slot_idx pc.1))
      else []) ++ [CEvent.backendCall]) :
    ev = .backendCall ∨ ∃ sl, ev = .isValid sl := by
  rcases List.mem_append.mp h with h | h
  · rcases List.mem_flatMap.mp h with ⟨w, _, h2⟩
    by_cases hm : c.is_cached_page_type w.1.page_type
    · rw [if_pos hm] at h2
      rcases List.mem_map.mp h2 with ⟨pc, _, h3⟩
      exact Or.inr ⟨c.slot_idx pc.1, h3.symm⟩
    · rw [if_neg hm] at h2
      cases h2
  · simp only [List.mem_singleton] at h
    exact Or.inl h

/-- C7: in both batched cache operations `update_validity` is the first
event, it happens exactly once per batch, and every validator
consultation (`is_valid`) happens strictly after it. -/
theorem c7_update_validity_once :
    (∀ (c : PageCache) (reads : List (PhysicalAddress × Nat)),
      (phys_read_iter_trace c reads).head? = some .updateValidity ∧
      (phys_read_iter_trace c reads).count .updateValidity = 1 ∧
      (∀ i sl, (phys_read_iter_trace c reads)[i]? = some (.isValid sl) →
        (phys_read_iter_trace c reads)[0]? = some .updateValidity ∧ 0 < i)) ∧
    (∀ (c : PageCache) (writes : List (PhysicalAddress × List Nat)),
      (phys_write_iter_trace c writes).head? = some .updateValidity ∧
      (phys_write_iter_trace c writes).count .updateValidity = 1 ∧
      (∀ i sl, (phys_write_iter_trace c writes)[i]? = some (.isValid sl) →
        (phys_write_iter_trace c writes)[0]? = some .updateValidity ∧ 0 < i)) := by
  constructor
  · intro c reads
    refine ⟨rfl, ?_, ?_⟩
    · show ((CEvent.updateValidity :: (CEvent.arenaReset :: cachedReadTrace c reads)).count
        CEvent.updateValidity) = 1
      rw [List.count_cons_self, List.count_cons_of_ne (by simp)]
      rw [List.count_eq_zero.mpr]
      intro hmem
      rcases cachedReadTrace_events c reads _ hmem with h | ⟨sl, h⟩ | h | h <;> cases h
    · intro i sl h
      refine ⟨read_trace_zero c reads, ?_⟩
      cases i with
      | zero =>
        rw [read_trace_zero c reads] at h
        simp at h
      | succ n => exact Nat.succ_pos n
  · intro c writes
    refine ⟨rfl, ?_, ?_⟩
    · show ((CEvent.updateValidity :: _).count CEvent.updateValidity) = 1
      rw [List.count_cons_self]
      rw [List.count_eq_zero.mpr]
      intro hmem
      rcases writeTraceTail_events c writes _ hmem with h | ⟨sl, h⟩ <;> cases h
    · intro i sl h
      refine ⟨write_trace_zero c writes, ?_⟩
      cases i with
      | zero =>
        rw [write_trace_zero c writes] at h
        simp at h
      | succ n => exact Nat.succ_pos n

/-- C7 witness: a masked write through the one-slot invalid cache
consults the validator at trace position 1, after the update at
position 0. -/
theorem c7_update_validity_once_witness :
    (phys_write_iter_trace missCache
        [({ address := 0, page_type := 2, page_size := 0 }, [7])])[1]? =
      some (CEvent.isValid 0) ∧
    (phys_write_iter_trace missCache
        [({ address := 0, page_type := 2, page_size := 0 }, [7])])[0]? =
      some CEvent.updateValidity ∧ 0 < 1 := by
  refine ⟨by decide, ?_⟩
  exact (c7_update_validity_once.2 missCache
    [({ address := 0, page_type := 2, page_size := 0 }, [7])]).2.2 1 0 (by decide)

/-- C8 counterexample: `phys_write_iter` is a batched operation of
`CachedMemoryAccess`, yet its event trace contains no arena reset — so
the arena is not reset at the start of every batched operation. -/
theorem c8_arena_counterexample :
    (phys_write_iter_trace missCache
        [({ address := 0, page_type := 2, page_size := 0 }, [7])]).count
      CEvent.arenaReset = 0 := by decide

/-- C8 amended: the arena is reset once per batched read
(`phys_read_iter`), immediately after the validity update and before
any cache processing (in particular before every arena allocation of
the batch); the write path never resets nor allocates from the arena. -/
theorem c8_arena_reset_amended :
    (∀ (c : PageCache) (reads : List (PhysicalAddress × Nat)),
      (phys_read_iter_trace c reads)[1]? = some .arenaReset ∧
      (phys_read_iter_trace c reads).count .arenaReset = 1 ∧
      (∀ i, (phys_read_iter_trace c reads)[i]? = some .arenaAlloc → 1 < i)) ∧
    (∀ (c : PageCache) (writes : List (PhysicalAddress × List Nat)),
      (phys_write_iter_trace c writes).count .arenaReset = 0 ∧
      (phys_write_iter_trace c writes).count .arenaAlloc = 0) := by
  constructor
  · intro c reads
    refine ⟨read_trace_one c reads, ?_, ?_⟩
    · show ((CEvent.updateValidity :: (CEvent.arenaReset :: cachedReadTrace c reads)).count
        CEvent.arenaReset) = 1
      rw [List.count_cons_of_ne (by simp), List.count_cons_self]
      rw [List.count_eq_zero.mpr]
      intro hmem
      rcases cachedReadTrace_events c reads _ hmem with h | ⟨sl, h⟩ | h | h <;> cases h
    · intro i h
      match i with
      | 0 =>
        rw [read_trace_zero c reads] at h
        simp at h
      | 1 =>
        rw [read_trace_one c reads] at h
        simp at h
      | (n + 2) => omega
  · intro c writes
    constructor
    · show ((CEvent.updateValidity :: _).count CEvent.arenaReset) = 0
      rw [List.count_cons_of_ne (by simp)]
      rw [List.count_eq_zero.mpr]
      intro hmem
      rcases writeTraceTail_events c writes _ hmem with h | ⟨sl, h⟩ <;> cases h
    · show ((CEvent.updateValidity :: _).count CEvent.arenaAlloc) = 0
      rw [List.count_cons_of_ne (by simp)]
      rw [List.count_eq_zero.mpr]
      intro hmem
      rcases writeTraceTail_events c writes _ hmem with h | ⟨sl, h⟩ <;> cases h

/-- C8 amended witness: a missing masked read arena-allocates at trace
position 3, strictly after the reset at position 1. -/
theorem c8_arena_reset_amended_witness :
    (phys_read_iter_trace missCache
        [({ address := 0, page_type := 2, page_size := 0 }, 1)])[3]? =
      some CEvent.arenaAlloc ∧ 1 < 3 := by
  refine ⟨by decide, ?_⟩
  exact (c8_arena_reset_amended.1 missCache
    [({ address := 0, page_type := 2, page_size := 0 }, 1)]).2.2 3 (by decide)
